import Mathlib

/-!
Shallow embedding of `edb/lang/schema/utils.py` (EdgeDB schema utilities):
type-reference resolution (`ast_to_typeref` / `typeref_to_ast`), hierarchy
algebra over MROs, attribute merge reducers, the suggestion engine and the
polymorphic-argument legality check.  Python dictionaries with `Optional`
keys become association lists, `None`-able values become `Option`, raised
exceptions become `Except`, and the ordered dict used for tuple elements
becomes an explicit ordered key/value list.  External collaborators that are
not part of the visible source (`schema.get`, the collection constructors,
`levenshtein.distance`, the error class) are modelled from the spec and say
so in their doc comments.
-/

deriving instance DecidableEq for Except

/-! ### Names, aliases, errors -/

/-- Qualified schema name `sn.Name`: a module plus a short name. -/
structure QName where
  module : String
  name : String
deriving DecidableEq

/-- Module-alias map `modaliases : Dict[Optional[str], str]`, as an
association list keyed by an optional module designator. -/
abbrev Aliases := List (Option String × String)

/-- Python `modaliases.get(k)`: first binding for the key, else `none`. -/
def aliasLookup (ma : Aliases) (k : Option String) : Option String :=
  match ma.find? (fun p => p.1 == k) with
  | Option.some p => Option.some p.2
  | Option.none => Option.none

/-- Python `modaliases.get(k, d)`: lookup with a default. -/
def aliasGetD (ma : Aliases) (k : Option String) (d : Option String) : Option String :=
  match ma.find? (fun p => p.1 == k) with
  | Option.some p => Option.some p.2
  | Option.none => d

/-- Python truthiness of an optional string: `None` and `''` are falsy. -/
def pyTruthyOptStr : Option String → Bool
  | Option.some s => !(s == "")
  | Option.none => false

/-- Error kinds of `s_err`: `ItemNotFoundError`, `InvalidTypeDefinitionError`
(a `SchemaError`), and a plain `ValueError` as raised for unknown collection
keywords. -/
inductive ErrKind where
  | itemNotFound
  | invalidTypeDefinition
  | valueError
deriving DecidableEq

/-- Modelled from the spec: an error value carries a kind tag, a message and
a settable source-location field (the error class itself lives in the absent
`schema/error.py`). -/
structure SchemaErr where
  kind : ErrKind
  message : String
  context : Option Nat
deriving DecidableEq

/-- Python `e.set_source_context(ctx)`: overwrite the location. -/
def setSourceContext (e : SchemaErr) (ctx : Option Nat) : SchemaErr :=
  { e with context := ctx }

/-! ### AST nodes (`ql_ast.TypeName`) -/

/-- AST `ObjectRef`: an optionally qualified syntactic name. -/
structure ObjectRefAst where
  module : Option String
  name : String
deriving DecidableEq

mutual
/-- AST `TypeName` node: optional field name (used for tuple subtypes), a
main type name, optional subtype list, and a diagnostic context. -/
inductive AstTypeName where
  | mk (name : Option String) (maintype : ObjectRefAst) (subtypes : TNSub) (context : Option Nat)
deriving DecidableEq
/-- Python `node.subtypes`, either `None` or a list. -/
inductive TNSub where
  | none
  | some (l : TNList)
deriving DecidableEq
/-- A list of `TypeName` subtype nodes. -/
inductive TNList where
  | nil
  | cons (hd : AstTypeName) (tl : TNList)
deriving DecidableEq
end

def AstTypeName.nameAttr : AstTypeName → Option String
  | .mk n _ _ _ => n

def AstTypeName.maintype : AstTypeName → ObjectRefAst
  | .mk _ m _ _ => m

def AstTypeName.subtypes : AstTypeName → TNSub
  | .mk _ _ s _ => s

def AstTypeName.context : AstTypeName → Option Nat
  | .mk _ _ _ c => c

def tnlLen : TNList → Nat
  | .nil => 0
  | .cons _ tl => tnlLen tl + 1

/-- Membership of a node in a subtype list. -/
def tnlContains (st : AstTypeName) : TNList → Bool
  | .nil => false
  | .cons hd tl => st == hd || tnlContains st tl

/-- Python `node.subtypes[0].context` (the first subtype's location). -/
def tnlFirstContext : TNList → Option Nat
  | .nil => Option.none
  | .cons st _ => st.context

/-! ### Canonical type descriptors (`so.ObjectRef` and collection types) -/

mutual
/-- A resolved type reference: a plain `so.ObjectRef` carrying a qualified
class name, an `Array` collection, or a `Tuple` collection with its ordered
name-to-type element map and its named-mode flag. -/
inductive SObject where
  | ref (classname : QName)
  | array (elem : SObject)
  | tuple (elements : ElemList) (named : Bool)
deriving DecidableEq
/-- Ordered name-to-type element map of a tuple (Python `OrderedDict`). -/
inductive ElemList where
  | nil
  | cons (key : String) (val : SObject) (tl : ElemList)
deriving DecidableEq
end

def elemsLen : ElemList → Nat
  | .nil => 0
  | .cons _ _ tl => elemsLen tl + 1

def elemKeys : ElemList → List String
  | .nil => []
  | .cons k _ tl => k :: elemKeys tl

def elemFind (k : String) : ElemList → Option SObject
  | .nil => Option.none
  | .cons k1 v tl => if k1 = k then Option.some v else elemFind k tl

/-- Python `OrderedDict` assignment `d[k] = v`: replace in place when the
key exists (keeping its original position), else append at the end. -/
def odInsert (k : String) (v : SObject) : ElemList → ElemList
  | .nil => .cons k v .nil
  | .cons k1 v1 tl => if k1 = k then .cons k1 v tl else .cons k1 v1 (odInsert k v tl)

/-! ### External schema lookup contract -/

/-- Modelled from the spec: the external Schema lookup contract
`get(name, module_aliases, default=None)`.  The first argument is the
declared module (`none` when the looked-up name was unqualified), the second
the short name; the result is the canonical qualified name of the found
object (`obj.name`), or `none` on a miss. -/
structure Schema where
  get : Option String → String → Aliases → Option QName

/-! ### Collection registry (`s_types`), modelled from the spec -/

/-- The two collection constructors reachable from the registry. -/
inductive CollClass where
  | arrayC
  | tupleC
deriving DecidableEq

/-- Modelled from the spec: `Collection.get_class(keyword)` maps the
syntactic keyword to the collection constructor; unknown keywords are a
configuration error (`ValueError`), not a schema error. -/
def collGetClass : String → Option CollClass
  | "array" => Option.some CollClass.arrayC
  | "tuple" => Option.some CollClass.tupleC
  | _ => Option.none

/-- Modelled from the spec: `Tuple.from_subtypes(subtypes, {named})` builds
a tuple from an ordered element map and the named-mode flag; the call sites
in `ast_to_typeref` always supply a mode-consistent map, for which
construction succeeds. -/
def tupleFromSubtypes (elems : ElemList) (named : Bool) : Except SchemaErr SObject :=
  Except.ok (SObject.tuple elems named)

/-- Modelled from the spec: `Array.from_subtypes(subtypes)` requires exactly
one element type and otherwise fails with an `InvalidTypeDefinition` schema
error (the caller then forces the location). -/
def arrayFromSubtypes (elems : List SObject) : Except SchemaErr SObject :=
  match elems with
  | [e] => Except.ok (SObject.array e)
  | _ => Except.error ⟨ErrKind.invalidTypeDefinition, "unexpected number of subtypes, expecting 1", Option.none⟩

/-- Python `bool(named)` on the loop flag (`None` or `True`). -/
def optBoolToBool : Option Bool → Bool
  | Option.some b => b
  | Option.none => false

/-! ### `ast_to_typeref` -/

/-- The no-subtypes branch of `ast_to_typeref`: resolve a scalar/object name
through the schema (adopting the found object's canonical module) or, with
no schema, through the alias map; fail when the module stays undetermined. -/
def scalarTyperef (ma : Aliases) (schema : Option Schema) (mt : ObjectRefAst)
    (ctx : Option Nat) : Except SchemaErr SObject :=
  let nqname := mt.name
  let module0 := mt.module
  let module1 :=
    match schema with
    | Option.some s =>
      match s.get module0 nqname ma with
      | Option.some qn => Option.some qn.module
      | Option.none => module0
    | Option.none =>
      if ma.isEmpty then module0 else aliasLookup ma module0
  match module1 with
  | Option.none =>
    Except.error ⟨ErrKind.itemNotFound, "unqualified name and no default module set", ctx⟩
  | Option.some m => Except.ok (SObject.ref ⟨m, nqname⟩)

/-- Message of the mixed-mode tuple error. -/
def mixingMsg : String := "mixing named and unnamed tuple declaration is not supported"

mutual
/-- Embedding of `ast_to_typeref(node, modaliases, schema)`. -/
def ast_to_typeref (ma : Aliases) (schema : Option Schema) :
    AstTypeName → Except SchemaErr SObject
  | .mk _ mt (TNSub.some sts) ctx =>
    match collGetClass mt.name with
    | Option.some CollClass.tupleC =>
      match tupleLoop ma schema (tnlFirstContext sts) 0 Option.none Option.none ElemList.nil sts with
      | Except.error e => Except.error e
      | Except.ok (subtypes, named) =>
        (tupleFromSubtypes subtypes (optBoolToBool named)).mapError
          (fun e => setSourceContext e (tnlFirstContext sts))
    | Option.some CollClass.arrayC =>
      match convSubtypes ma schema sts with
      | Except.error e => Except.error e
      | Except.ok subtypes =>
        (arrayFromSubtypes subtypes).mapError (fun e => setSourceContext e ctx)
    | Option.none =>
      Except.error ⟨ErrKind.valueError, "unknown collection type", Option.none⟩
  | .mk _ mt TNSub.none ctx => scalarTyperef ma schema mt ctx
/-- The tuple branch's loop over `enumerate(node.subtypes)`: track the
named/unnamed flags, raise on a mix (locating the error at the first
subtype), and build the ordered element map by recursive conversion. -/
def tupleLoop (ma : Aliases) (schema : Option Schema) (firstCtx : Option Nat)
    (si : Nat) (named unnamed : Option Bool) (acc : ElemList) :
    TNList → Except SchemaErr (ElemList × Option Bool)
  | TNList.nil => Except.ok (acc, named)
  | TNList.cons st tl =>
    let isNamed := pyTruthyOptStr st.nameAttr
    let named1 := if isNamed then Option.some true else named
    let unnamed1 := if isNamed then unnamed else Option.some true
    let typeName := if isNamed then st.nameAttr.getD "" else toString si
    if named1.isSome && unnamed1.isSome then
      Except.error ⟨ErrKind.itemNotFound, mixingMsg, firstCtx⟩
    else
      match ast_to_typeref ma schema st with
      | Except.error e => Except.error e
      | Except.ok r => tupleLoop ma schema firstCtx (si + 1) named1 unnamed1 (odInsert typeName r acc) tl
/-- The non-tuple collection branch: positional recursive conversion. -/
def convSubtypes (ma : Aliases) (schema : Option Schema) :
    TNList → Except SchemaErr (List SObject)
  | TNList.nil => Except.ok []
  | TNList.cons st tl =>
    match ast_to_typeref ma schema st with
    | Except.error e => Except.error e
    | Except.ok r =>
      match convSubtypes ma schema tl with
      | Except.error e => Except.error e
      | Except.ok rs => Except.ok (r :: rs)
end

/-! ### `typeref_to_ast` -/

mutual
/-- Embedding of `typeref_to_ast(t)`: non-collections become a bare
qualified `TypeName`; collections become the collection keyword with
recursively converted subtypes (note that no subtype `name` field is ever
set, and constructed nodes carry no context). -/
def typeref_to_ast : SObject → AstTypeName
  | SObject.ref qn =>
    AstTypeName.mk Option.none ⟨Option.some qn.module, qn.name⟩ TNSub.none Option.none
  | SObject.array e =>
    AstTypeName.mk Option.none ⟨Option.none, "array"⟩
      (TNSub.some (TNList.cons (typeref_to_ast e) TNList.nil)) Option.none
  | SObject.tuple elems _ =>
    AstTypeName.mk Option.none ⟨Option.none, "tuple"⟩
      (TNSub.some (tupleElemsToAst elems)) Option.none
/-- Conversion of `t.get_subtypes()` for a tuple: the element values in
order, their declared names dropped. -/
def tupleElemsToAst : ElemList → TNList
  | ElemList.nil => TNList.nil
  | ElemList.cons _ v tl => TNList.cons (typeref_to_ast v) (tupleElemsToAst tl)
end

/-! ### Hierarchy algebra -/

/-- Failure of a raw Python list subscript. -/
inductive PyExn where
  | indexError
deriving DecidableEq

/-- Distinct elements in first-occurrence order (the list that Python's
`sorted(set(..), key=first.index)` produces when the input is a sublist of
`first`). -/
def dedupFirstAux [DecidableEq C] (seen : List C) : List C → List C
  | [] => []
  | a :: l => if a ∈ seen then dedupFirstAux seen l else a :: dedupFirstAux (a :: seen) l

/-- Embedding of `get_class_nearest_common_ancestor(classes)`: intersect the
MRO sets of all classes and return the member occurring earliest in the
first class's MRO; the Python `classes[0]` subscript fails on an empty
input. -/
def get_class_nearest_common_ancestor [DecidableEq C] (mro : C → List C)
    (classes : List C) : Except PyExn (Option C) :=
  match classes with
  | [] => Except.error PyExn.indexError
  | c0 :: rest =>
    let first := mro c0
    let common := dedupFirstAux []
      (first.filter (fun x => rest.all (fun c => decide (x ∈ mro c))))
    Except.ok common.head?

/-- Embedding of `minimize_class_set_by_most_generic(classes)`: keep entry
`i` exactly when no other entry `j` occurs in entry `i`'s MRO. -/
def minimize_class_set_by_most_generic [DecidableEq C] (mro : C → List C)
    (classes : List C) : List C :=
  let withIdx := classes.enum
  (withIdx.filter (fun ic =>
    !(withIdx.any (fun jc => jc.1 != ic.1 && decide (jc.2 ∈ mro ic.2))))).map
    (fun ic => ic.2)

/-- Embedding of `minimize_class_set_by_least_generic(classes)`: keep entry
`i` exactly when it occurs in no other entry `j`'s MRO. -/
def minimize_class_set_by_least_generic [DecidableEq C] (mro : C → List C)
    (classes : List C) : List C :=
  let withIdx := classes.enum
  (withIdx.filter (fun ic =>
    !(withIdx.any (fun jc => jc.1 != ic.1 && decide (ic.2 ∈ mro jc.2))))).map
    (fun ic => ic.2)

/-! ### Attribute merge engine -/

/-- One iteration of the `merge_reduce` collection loop: append the
source's value when it is present. -/
def collectStep (acc : List A) (theirs : Option A) : List A :=
  match theirs with
  | Option.some v => acc ++ [v]
  | Option.none => acc

/-- Embedding of `merge_reduce(target, sources, field_name, f)`; the
`getattr` projections are pre-applied, so the target's and the sources'
field values arrive as `Option`s. -/
def merge_reduce (target : Option A) (sources : List (Option A))
    (f : List A → A) : Option A :=
  let init : List A :=
    match target with
    | Option.some v => [v]
    | Option.none => []
  let values := sources.foldl collectStep init
  match values with
  | [] => Option.none
  | v :: vs => Option.some (f (v :: vs))

/-- Python `max` on a non-empty list of booleans (`False < True`). -/
def pyMaxBool (l : List Bool) : Bool := l.foldl (fun a b => a || b) false

/-- Python `min` on a non-empty list of booleans. -/
def pyMinBool (l : List Bool) : Bool := l.foldl (fun a b => a && b) true

/-- Embedding of `merge_sticky_bool`: reducer `max`. -/
def merge_sticky_bool (target : Option Bool) (sources : List (Option Bool)) : Option Bool :=
  merge_reduce target sources pyMaxBool

/-- Embedding of `merge_weak_bool`: reducer `min`. -/
def merge_weak_bool (target : Option Bool) (sources : List (Option Bool)) : Option Bool :=
  merge_reduce target sources pyMinBool

/-! ### Suggestion engine -/

/-- Modelled from the spec: `levenshtein.distance` (module
`edb/lang/common/levenshtein.py` is absent) is the textbook Levenshtein
edit distance; the fuel argument only drives the recursion and always
suffices for the given strings. -/
def levAux : Nat → List Char → List Char → Nat
  | 0, s, t => s.length + t.length
  | _ + 1, [], t => t.length
  | _ + 1, s@(_ :: _), [] => s.length
  | fuel + 1, a :: s, b :: t =>
    if a = b then levAux fuel s t
    else 1 + min (levAux fuel (a :: s) t) (min (levAux fuel s (b :: t)) (levAux fuel s t))

/-- Levenshtein distance between two strings. -/
def levenshtein_distance (s t : String) : Nat :=
  levAux (s.length + t.length) s.toList t.toList

/-- A schema object as the suggestion engine sees it: its canonical
qualified name (`name.module`, `name.name`), its unqualified short name
(`shortname.name`) and its display name. -/
structure SchemaItem where
  nameModule : String
  nameName : String
  shortname : String
  displayname : String
deriving DecidableEq

/-- Python `str.startswith`: the second list is a prefix of the first. -/
def startsWithPy : List Char → List Char → Bool
  | _, [] => true
  | [], _ :: _ => false
  | a :: s, b :: t => a == b && startsWithPy s t

/-- Code points of a string (Python compares strings pointwise by code
point). -/
def charPts (s : String) : List Nat := s.toList.map Char.toNat

/-- Lexicographic strict order on code-point lists (Python string `<`). -/
def ptsLt : List Nat → List Nat → Bool
  | [], [] => false
  | [], _ :: _ => true
  | _ :: _, [] => false
  | a :: s, b :: t => a < b || (a == b && ptsLt s t)

/-- Non-strict variant of `ptsLt`. -/
def ptsLe (s t : List Nat) : Bool := ptsLt s t || s == t

/-- The Python sort key `(distance, not startswith, displayname)` of a
scored suggestion, with the boolean mapped to `0`/`1`. -/
def suggKey (shortName : String) (sd : SchemaItem × Nat) : Nat × Nat × List Nat :=
  (sd.2,
   (if startsWithPy sd.1.shortname.toList shortName.toList then 0 else 1),
   charPts sd.1.displayname)

/-- Lexicographic comparison of sort keys. -/
def keyLe (x y : Nat × Nat × List Nat) : Bool :=
  x.1 < y.1 || (x.1 == y.1 && (x.2.1 < y.2.1 || (x.2.1 == y.2.1 && ptsLe x.2.2 y.2.2)))

/-- Comparison of two scored suggestions by their sort keys. -/
def suggLe (shortName : String) (x y : SchemaItem × Nat) : Bool :=
  keyLe (suggKey shortName x) (suggKey shortName y)

/-- Stable insertion of `x` after every element `y` of the already sorted
list with `le y x` (the insertion step of a stable sort). -/
def pyInsert (le : A → A → Bool) : List A → A → List A
  | [], x => [x]
  | y :: ys, x => if le y x then y :: pyInsert le ys x else x :: y :: ys

/-- Stable sort by repeated insertion, matching Python's stable `list.sort`
for the total preorder `le`. -/
def pySort (le : A → A → Bool) (l : List A) : List A := l.foldl (pyInsert le) []

/-- Embedding of `find_item_suggestions(name, modaliases, schema, ...)`.
The queried name is `(module?, short_name)` (`sn.Name` or a plain string);
`schemaModules m` stands for `schema.get_module(m).get_objects()`;
`item_types` is the optional category filter. -/
def find_item_suggestions (name : Option String × String) (modaliases : Aliases)
    (schemaModules : String → List SchemaItem) (item_types : Option (SchemaItem → Bool))
    (limit : Nat) (collection : Option (List SchemaItem)) : List SchemaItem :=
  let origModname := name.1
  let shortName := name.2
  let modname := aliasGetD modaliases origModname origModname
  let base :=
    match collection with
    | Option.some c => c
    | Option.none =>
      (match modname with
       | Option.some m => if m == "" then [] else schemaModules m
       | Option.none => []) ++
      (if pyTruthyOptStr origModname then [] else schemaModules "std")
  let filtered :=
    match item_types with
    | Option.some p => base.filter p
    | Option.none => base
  let withDistance := filtered.map (fun s => (s, levenshtein_distance shortName s.shortname))
  let maxDistance := 3
  let closest := withDistance.filter (fun sd => sd.2 < maxDistance)
  let sortedL := pySort (suggLe shortName) closest
  (sortedL.take limit).map (fun sd => sd.1)

/-- Modelled from the spec: the settable `(hint, details)` diagnostic pair
of a schema lookup error (the error class lives in the absent
`schema/error.py`); all other fields are opaque payload. -/
structure LookupErr where
  message : String
  context : Option Nat
  hint : Option String
  details : Option String
deriving DecidableEq

/-- Python `error.set_hint_and_details(hint=h)`: set the hint, reset the
details to their `None` default. -/
def set_hint_and_details (e : LookupErr) (h : String) : LookupErr :=
  { e with hint := Option.some h, details := Option.none }

/-- A single-quote character, as produced by Python `repr` on a name. -/
def sglQuote : String := String.singleton (Char.ofNat 39)

/-- Python `f-string` fragment `{name!r}` for a plain name. -/
def pyRepr (s : String) : String := sglQuote ++ s ++ sglQuote

/-- The rendering of one suggestion inside `enrich_schema_lookup_error`:
its short name when its module is the standard module or the caller's
current default module alias (`modaliases.get(None)`), else its display
name. -/
def renderSuggestion (modaliases : Aliases) (s : SchemaItem) : String :=
  if s.nameModule == "std" || Option.some s.nameModule == aliasLookup modaliases Option.none
  then s.shortname
  else s.displayname

/-- Embedding of `enrich_schema_lookup_error(error, item_name, ...)`:
compute suggestions, and when there are any, attach a hint naming them
(short names for the standard or current module, display names otherwise,
optionally passed through `name_template`). -/
def enrich_schema_lookup_error (error : LookupErr) (itemName : Option String × String)
    (modaliases : Aliases) (schemaModules : String → List SchemaItem)
    (item_types : Option (SchemaItem → Bool)) (suggestionLimit : Nat)
    (nameTemplate : Option (String → String)) (collection : Option (List SchemaItem)) :
    LookupErr :=
  let suggestions :=
    find_item_suggestions itemName modaliases schemaModules item_types suggestionLimit collection
  match suggestions with
  | [] => error
  | _ :: _ =>
    let names := suggestions.map (renderSuggestion modaliases)
    let names1 :=
      match nameTemplate with
      | Option.some tmpl => names.map tmpl
      | Option.none => names
    match names1 with
    | [] => error
    | [n] => set_hint_and_details error ("did you mean " ++ pyRepr n ++ "?")
    | n :: n1 :: rest =>
      set_hint_and_details error
        ("did you mean one of these: " ++ String.intercalate ", " (n :: n1 :: rest) ++ "?")

/-! ### Legality check -/

mutual
/-- Modelled from the spec: the `name` attribute of a schema type
(`types.py` is absent).  A plain reference's name is its qualified name
rendered `module::name`; a collection's name is a composite keyword form,
which in particular never equals a scalar qualified name. -/
def stypeName : SObject → String
  | SObject.ref qn => qn.module ++ "::" ++ qn.name
  | SObject.array e => "array<" ++ stypeName e ++ ">"
  | SObject.tuple elems _ => "tuple<" ++ elemTypeNames elems ++ ">"
/-- Comma-joined element type names of a tuple. -/
def elemTypeNames : ElemList → String
  | ElemList.nil => ""
  | ElemList.cons _ v tl => stypeName v ++ "," ++ elemTypeNames tl
end

/-- Python `isinstance(t, s_types.Array)`. -/
def isArray : SObject → Bool
  | SObject.array _ => true
  | _ => false

/-- Python `t.get_subtypes()` for collections. -/
def getSubtypesPos : SObject → List SObject
  | SObject.ref _ => []
  | SObject.array e => [e]
  | SObject.tuple elems _ => elemValues elems
where
  elemValues : ElemList → List SObject
    | ElemList.nil => []
    | ElemList.cons _ v tl => v :: elemValues tl

/-- Embedding of `is_legal_function_arg(argt, paramt, returnt)`. -/
def is_legal_function_arg (argt paramt returnt : SObject) : Bool :=
  !(stypeName paramt == "std::any"
    && isArray returnt
    && stypeName ((getSubtypesPos returnt).headD (SObject.tuple ElemList.nil false)) == "std::any"
    && isArray argt)

/-! ### General list lemmas used by the hierarchy-algebra proofs -/

theorem dedupFirstAux_nil_head [DecidableEq C] (l : List C) :
    (dedupFirstAux [] l).head? = l.head? := by
  cases l with
  | nil => rfl
  | cons a t => simp [dedupFirstAux]

theorem head_filter_none (p : C → Bool) (l : List C)
    (h : (l.filter p).head? = Option.none) : ∀ x ∈ l, p x = false := by
  induction l with
  | nil => intro x hx; cases hx
  | cons a t ih =>
    intro x hx
    by_cases hp : p a
    · simp [List.filter_cons, hp] at h
    · simp only [List.filter_cons, hp] at h
      rcases List.mem_cons.mp hx with rfl | hx1
      · simpa using hp
      · exact ih (by simpa [hp] using h) x hx1

theorem head_filter_some (p : C → Bool) (l : List C) (x : C)
    (h : (l.filter p).head? = Option.some x) :
    p x = true ∧ ∃ pre post, l = pre ++ x :: post ∧ ∀ y ∈ pre, p y = false := by
  induction l with
  | nil => simp [List.filter_nil] at h
  | cons a t ih =>
    by_cases hp : p a
    · simp only [List.filter_cons, hp, if_true, List.head?_cons, Option.some.injEq] at h
      subst h
      exact ⟨hp, [], t, rfl, by intro y hy; cases hy⟩
    · simp only [List.filter_cons, hp] at h
      have h2 := ih (by simpa [hp] using h)
      rcases h2 with ⟨hpx, pre, post, rfl, hpre⟩
      refine ⟨hpx, a :: pre, post, rfl, ?_⟩
      intro y hy
      rcases List.mem_cons.mp hy with rfl | hy1
      · simpa using hp
      · exact hpre y hy1

/-! ### Claim C5 -/

/-- Claim C5, counterexample: on the empty input the code evaluates
`classes[0]` and fails with `IndexError`; it does not return the absent
value, so the operation is not total on the empty list. -/
theorem c5_nca_empty_counterexample :
    get_class_nearest_common_ancestor (fun n : Nat => [n]) ([] : List Nat) =
      Except.error PyExn.indexError ∧
    Except.error PyExn.indexError ≠ (Except.ok Option.none : Except PyExn (Option Nat)) := by
  decide

/-- Claim C5, amended: `get_class_nearest_common_ancestor` applied to an
empty input list fails with an `IndexError` raised by the `classes[0]`
subscript (it does not return none). -/
theorem c5_nca_empty_amended (C : Type) (inst : DecidableEq C) (mro : C → List C) :
    @get_class_nearest_common_ancestor C inst mro [] = Except.error PyExn.indexError := rfl

/-! ### Claim C4 -/

/-- Concrete diamond hierarchy exhibiting the first-operand asymmetry of the
nearest-common-ancestor operation. -/
def mroDiamond : Nat → List Nat :=
  fun n => if n = 3 then [3, 1, 2, 0] else if n = 4 then [4, 2, 1, 0] else [n]

/-- Claim C4: for a non-empty input, `get_class_nearest_common_ancestor`
returns (without failing) the member of the intersection of all the MRO
sets occurring earliest in the first class's MRO, or none when the
intersection is empty; when every input is the same class `A` (whose MRO
starts with itself) the result is `A`; and the operation is not symmetric
under reordering, witnessed by a concrete diamond. -/
theorem c4_nearest_common_ancestor :
    (∀ (C : Type) (inst : DecidableEq C) (mro : C → List C) (c0 : C) (rest : List C),
      ∃ r, @get_class_nearest_common_ancestor C inst mro (c0 :: rest) = Except.ok r ∧
        ((r = Option.none ∧ ∀ x ∈ mro c0, ∃ c ∈ rest, x ∉ mro c) ∨
         (∃ x, r = Option.some x ∧ (∀ c ∈ c0 :: rest, x ∈ mro c) ∧
           ∃ pre post, mro c0 = pre ++ x :: post ∧
             ∀ y ∈ pre, ∃ c ∈ rest, y ∉ mro c))) ∧
    (∀ (C : Type) (inst : DecidableEq C) (mro : C → List C) (A : C) (tl : List C) (n : Nat),
      mro A = A :: tl →
      @get_class_nearest_common_ancestor C inst mro (List.replicate (n + 1) A) =
        Except.ok (Option.some A)) ∧
    get_class_nearest_common_ancestor mroDiamond [3, 4] ≠
      get_class_nearest_common_ancestor mroDiamond [4, 3] := by
  refine ⟨?_, ?_, by decide⟩
  · intro C inst mro c0 rest
    refine ⟨_, rfl, ?_⟩
    rw [dedupFirstAux_nil_head]
    set p : C → Bool := fun x => rest.all (fun c => decide (x ∈ mro c)) with hp
    cases hh : ((mro c0).filter p).head? with
    | none =>
      refine Or.inl ⟨rfl, ?_⟩
      intro x hx
      have hfx := head_filter_none p (mro c0) hh x hx
      rw [hp, List.all_eq_false] at hfx
      rcases hfx with ⟨c, hc1, hc2⟩
      simp only [decide_eq_true_eq] at hc2
      exact ⟨c, hc1, hc2⟩
    | some x =>
      have := head_filter_some p (mro c0) x hh
      rcases this with ⟨hpx, pre, post, hdec, hpre⟩
      refine Or.inr ⟨x, rfl, ?_, pre, post, hdec, ?_⟩
      · intro c hc
        rcases List.mem_cons.mp hc with rfl | hc1
        · rw [hdec]; exact List.mem_append_right _ (List.mem_cons_self _ _)
        · rw [hp] at hpx
          simp only [List.all_eq_true, decide_eq_true_eq] at hpx
          exact hpx c hc1
      · intro y hy
        have := hpre y hy
        rw [hp, List.all_eq_false] at this
        rcases this with ⟨c, hc1, hc2⟩
        exact ⟨c, hc1, by simpa using hc2⟩
  · intro C inst mro A tl n hA
    have hrepl : List.replicate (n + 1) A = A :: List.replicate n A := rfl
    rw [hrepl]
    show Except.ok ((dedupFirstAux [] ((mro A).filter _)).head?) = _
    rw [dedupFirstAux_nil_head, hA]
    have hfilter : (List.replicate n A).all (fun c => decide (A ∈ mro c)) = true := by
      simp only [List.all_eq_true, decide_eq_true_eq]
      intro c hc
      rw [List.eq_of_mem_replicate hc, hA]
      exact List.mem_cons_self _ _
    have hstep : List.filter (fun x => (List.replicate n A).all fun c => decide (x ∈ mro c)) (A :: tl)
        = A :: List.filter (fun x => (List.replicate n A).all fun c => decide (x ∈ mro c)) tl :=
      List.filter_cons_of_pos
        (p := fun x => (List.replicate n A).all fun c => decide (x ∈ mro c)) (a := A) hfilter
    rw [hstep]
    rfl

/-- Witness for claim C4: the same-class conjunct applied at the concrete
one-member hierarchy. -/
theorem c4_nearest_common_ancestor_witness :
    get_class_nearest_common_ancestor (fun n : Nat => [n]) (List.replicate 2 0) =
      Except.ok (Option.some 0) :=
  c4_nearest_common_ancestor.2.1 Nat inferInstance (fun n => [n]) 0 [] 1 rfl

/-! ### Claim C2 -/

/-- Two-class hierarchy: class `1` is a subclass of class `0` (its MRO is
`[1, 0]`), class `0` is a root. -/
def mroPair : Nat → List Nat := fun n => if n = 1 then [1, 0] else [n]

/-- Claim C2, counterexample: with `0` a strict ancestor of `1` (and `1` not
an ancestor of `0`), the claim mandates dropping the ancestor `0` and
keeping `1`, i.e. the result `[1]`; the code instead keeps the ancestor and
drops the subclass, returning `[0]` — consistent with its own docstring
("filtering out all subclasses"). -/
theorem c2_minimize_most_generic_counterexample :
    minimize_class_set_by_most_generic mroPair [0, 1] = [0] ∧
    (0 : Nat) ∈ mroPair 1 ∧ (0 : Nat) ≠ 1 ∧ (1 : Nat) ∉ mroPair 0 ∧
    minimize_class_set_by_most_generic mroPair [0, 1] ≠ [1] := by decide

theorem enumFrom_map_snd (l : List C) : ∀ n, (List.enumFrom n l).map (fun ic => ic.2) = l := by
  induction l with
  | nil => intro n; rfl
  | cons a t ih => intro n; simp [List.enumFrom, ih (n + 1)]

/-- Claim C2, amended: `minimize_class_set_by_most_generic` keeps exactly
those entries whose MRO contains no other input entry — that is, it drops
each entry that is a strict *descendant* (subclass, per MRO membership) of
another input class, as well as every duplicated entry, and the result is a
sublist of the input.  (The spec's description — dropping strict ancestors —
matches `minimize_class_set_by_least_generic` instead.) -/
theorem c2_minimize_most_generic_amended (C : Type) (inst : DecidableEq C)
    (mro : C → List C) (classes : List C) :
    (∀ x, x ∈ @minimize_class_set_by_most_generic C inst mro classes ↔
      ∃ i : Nat, classes[i]? = Option.some x ∧
        ∀ (j : Nat) (y : C), classes[j]? = Option.some y → j ≠ i → y ∉ mro x) ∧
    List.Sublist (@minimize_class_set_by_most_generic C inst mro classes) classes := by
  constructor
  · intro x
    simp only [minimize_class_set_by_most_generic, List.mem_map, List.mem_filter]
    constructor
    · rintro ⟨⟨i, x1⟩, ⟨hmem, hq⟩, rfl⟩
      refine ⟨i, List.mk_mem_enum_iff_getElem?.mp hmem, ?_⟩
      intro j y hj hne hy
      have hjc : (j, y) ∈ classes.enum := List.mk_mem_enum_iff_getElem?.mpr hj
      rw [Bool.not_eq_eq_eq_not, Bool.not_true, List.any_eq_false] at hq
      have := hq (j, y) hjc
      simp only [bne_iff_ne, Bool.and_eq_true, decide_eq_true_eq, ne_eq, not_and] at this
      exact this hne hy
    · rintro ⟨i, hi, hall⟩
      refine ⟨(i, x), ⟨List.mk_mem_enum_iff_getElem?.mpr hi, ?_⟩, rfl⟩
      rw [Bool.not_eq_eq_eq_not, Bool.not_true, List.any_eq_false]
      rintro ⟨j, y⟩ hjc
      simp only [bne_iff_ne, Bool.and_eq_true, decide_eq_true_eq, ne_eq, not_and]
      intro hne hy
      exact hall j y (List.mk_mem_enum_iff_getElem?.mp hjc) hne hy
  · have h1 : List.Sublist (classes.enum.filter
        (fun ic => !(classes.enum.any (fun jc => jc.1 != ic.1 && decide (jc.2 ∈ mro ic.2)))))
        classes.enum := List.filter_sublist _
    have h2 := h1.map (fun ic => ic.2)
    simpa [minimize_class_set_by_most_generic, List.enum, enumFrom_map_snd] using h2

/-! ### Claim C7 -/

/-- Claim C7: `is_legal_function_arg` returns false exactly when the
parameter type's name is the universal polymorphic `std::any`, the return
type is an Array whose element type is itself named `std::any`, and the
argument type is also an Array; every other combination returns true. -/
theorem c7_is_legal_function_arg (argt paramt returnt : SObject) :
    is_legal_function_arg argt paramt returnt = false ↔
      (stypeName paramt = "std::any" ∧
       (∃ e, returnt = SObject.array e ∧ stypeName e = "std::any") ∧
       (∃ a, argt = SObject.array a)) := by
  cases returnt with
  | ref qn =>
    simp [is_legal_function_arg, isArray]
  | tuple elems named =>
    simp [is_legal_function_arg, isArray]
  | array e =>
    cases argt with
    | ref qn2 => simp [is_legal_function_arg, isArray]
    | tuple elems2 named2 => simp [is_legal_function_arg, isArray]
    | array a =>
      simp [is_legal_function_arg, isArray, getSubtypesPos, and_assoc]

/-! ### Claim C8 -/

theorem foldl_collect (A : Type) (ss : List (Option A)) :
    ∀ acc : List A, ss.foldl collectStep acc = acc ++ ss.filterMap id := by
  induction ss with
  | nil => intro acc; simp
  | cons s tl ih =>
    intro acc
    cases s with
    | none => simp [collectStep, List.filterMap_cons, ih acc]
    | some v => simp [collectStep, List.filterMap_cons, ih (acc ++ [v])]

/-- Claim C8: `merge_reduce` collects the target's value (when present)
followed by each source's value in order (when present), folds the
non-empty collection with the reducer and returns absent otherwise; in
particular `merge_sticky_bool` (max) yields true and `merge_weak_bool`
(min) yields false on sources `[true, false, absent]` with an absent
target, and both yield absent on all-absent inputs. -/
theorem c8_merge_reduce :
    (∀ (A : Type) (t : Option A) (ss : List (Option A)) (f : List A → A),
      merge_reduce t ss f =
        match t.toList ++ ss.filterMap id with
        | [] => Option.none
        | v :: vs => Option.some (f (v :: vs))) ∧
    merge_sticky_bool Option.none [Option.some true, Option.some false, Option.none] =
      Option.some true ∧
    merge_weak_bool Option.none [Option.some true, Option.some false, Option.none] =
      Option.some false ∧
    (∀ (t : Option Bool) (ss : List (Option Bool)),
      t = Option.none → (∀ s ∈ ss, s = Option.none) →
      merge_sticky_bool t ss = Option.none ∧ merge_weak_bool t ss = Option.none) := by
  have hgen : ∀ (A : Type) (t : Option A) (ss : List (Option A)) (f : List A → A),
      merge_reduce t ss f =
        match t.toList ++ ss.filterMap id with
        | [] => Option.none
        | v :: vs => Option.some (f (v :: vs)) := by
    intro A t ss f
    have hfold := foldl_collect A ss
    cases t with
    | none =>
      show (match List.foldl collectStep [] ss with
            | [] => Option.none
            | v :: vs => Option.some (f (v :: vs))) =
           (match (Option.none : Option A).toList ++ ss.filterMap id with
            | [] => Option.none
            | v :: vs => Option.some (f (v :: vs)))
      rw [hfold []]
      cases List.filterMap id ss <;> rfl
    | some v0 =>
      show (match List.foldl collectStep [v0] ss with
            | [] => Option.none
            | v :: vs => Option.some (f (v :: vs))) =
           (match (Option.some v0).toList ++ ss.filterMap id with
            | [] => Option.none
            | v :: vs => Option.some (f (v :: vs)))
      rw [hfold [v0]]
      rfl
  refine ⟨hgen, by decide, by decide, ?_⟩
  intro t ss ht hss
  subst ht
  have hnil : ss.filterMap id = [] := by
    rw [List.filterMap_eq_nil_iff]
    intro s hs
    rw [hss s hs]
    rfl
  constructor <;>
    simp [merge_sticky_bool, merge_weak_bool, hgen, hnil, Option.toList]

/-- Witness for claim C8: the all-absent conjunct applied at a concrete
absent target and single absent source. -/
theorem c8_merge_reduce_witness :
    merge_sticky_bool Option.none [Option.none] = Option.none ∧
    merge_weak_bool Option.none [Option.none] = Option.none :=
  c8_merge_reduce.2.2.2 Option.none [Option.none] rfl (by simp)

/-- Witness for claim C5: the amended statement applied at a concrete MRO
function. -/
theorem c5_nca_empty_witness :
    get_class_nearest_common_ancestor (fun n : Nat => [n]) ([] : List Nat) =
      Except.error PyExn.indexError :=
  c5_nca_empty_amended Nat inferInstance (fun n => [n])

/-- Witness for claim C2: the sublist conjunct of the amended statement
applied at the concrete two-class hierarchy. -/
theorem c2_minimize_most_generic_witness :
    List.Sublist (minimize_class_set_by_most_generic mroPair [0, 1]) [0, 1] :=
  (c2_minimize_most_generic_amended Nat inferInstance mroPair [0, 1]).2

/-- The universal polymorphic type `std::any`, as a plain reference. -/
def cAnyType : SObject := SObject.ref ⟨"std", "any"⟩

/-- A concrete scalar type `std::int64`. -/
def cInt64Type : SObject := SObject.ref ⟨"std", "int64"⟩

/-- Witness for claim C7: the illegal configuration of the spec's example
(`arg = array of int64`, `param = std::any`, `return = array of std::any`)
obtained by applying the characterization right-to-left. -/
theorem c7_is_legal_function_arg_witness :
    is_legal_function_arg (SObject.array cInt64Type) cAnyType (SObject.array cAnyType) = false :=
  (c7_is_legal_function_arg (SObject.array cInt64Type) cAnyType (SObject.array cAnyType)).mpr
    ⟨by decide, ⟨cAnyType, rfl, by decide⟩, ⟨cInt64Type, rfl⟩⟩

/-! ### Order and sorting lemmas for the suggestion engine -/

theorem ptsLt_trans : ∀ a b c : List Nat,
    ptsLt a b = true → ptsLt b c = true → ptsLt a c = true := by
  intro a
  induction a with
  | nil =>
    intro b c hab hbc
    cases b with
    | nil => simp [ptsLt] at hab
    | cons y ys =>
      cases c with
      | nil => simp [ptsLt] at hbc
      | cons z zs => simp [ptsLt]
  | cons x xs ih =>
    intro b c hab hbc
    cases b with
    | nil => simp [ptsLt] at hab
    | cons y ys =>
      cases c with
      | nil => simp [ptsLt] at hbc
      | cons z zs =>
        simp only [ptsLt, Bool.or_eq_true, Bool.and_eq_true, decide_eq_true_eq,
          beq_iff_eq] at hab hbc ⊢
        rcases hab with h1 | ⟨he1, h2⟩
        · rcases hbc with g1 | ⟨ge1, g2⟩
          · exact Or.inl (Nat.lt_trans h1 g1)
          · exact Or.inl (ge1 ▸ h1)
        · rcases hbc with g1 | ⟨ge1, g2⟩
          · exact Or.inl (he1 ▸ g1)
          · exact Or.inr ⟨he1.trans ge1, ih ys zs h2 g2⟩

theorem ptsLt_total : ∀ a b : List Nat, a ≠ b → ptsLt a b = true ∨ ptsLt b a = true := by
  intro a
  induction a with
  | nil =>
    intro b hne
    cases b with
    | nil => exact absurd rfl hne
    | cons y ys => exact Or.inl (by simp [ptsLt])
  | cons x xs ih =>
    intro b hne
    cases b with
    | nil => exact Or.inr (by simp [ptsLt])
    | cons y ys =>
      by_cases hxy : x = y
      · subst hxy
        have hne2 : xs ≠ ys := fun h => hne (by rw [h])
        rcases ih ys hne2 with h | h
        · exact Or.inl (by simp [ptsLt, h])
        · exact Or.inr (by simp [ptsLt, h])
      · rcases Nat.lt_or_ge x y with h | h
        · exact Or.inl (by simp [ptsLt, h])
        · have : y < x := Nat.lt_of_le_of_ne h (fun e => hxy e.symm)
          exact Or.inr (by simp [ptsLt, this])

theorem ptsLe_trans (a b c : List Nat) (h1 : ptsLe a b = true) (h2 : ptsLe b c = true) :
    ptsLe a c = true := by
  simp only [ptsLe, Bool.or_eq_true, beq_iff_eq] at h1 h2 ⊢
  rcases h1 with h1 | rfl
  · rcases h2 with h2 | rfl
    · exact Or.inl (ptsLt_trans a b c h1 h2)
    · exact Or.inl h1
  · exact h2

theorem ptsLe_total (a b : List Nat) : ptsLe a b = true ∨ ptsLe b a = true := by
  by_cases h : a = b
  · subst h; exact Or.inl (by simp [ptsLe])
  · rcases ptsLt_total a b h with h1 | h1
    · exact Or.inl (by simp [ptsLe, h1])
    · exact Or.inr (by simp [ptsLe, h1])

theorem keyLe_trans (x y z : Nat × Nat × List Nat)
    (h1 : keyLe x y = true) (h2 : keyLe y z = true) : keyLe x z = true := by
  obtain ⟨x1, x2, x3⟩ := x
  obtain ⟨y1, y2, y3⟩ := y
  obtain ⟨z1, z2, z3⟩ := z
  simp only [keyLe, Bool.or_eq_true, Bool.and_eq_true, decide_eq_true_eq, beq_iff_eq] at h1 h2 ⊢
  rcases h1 with h1 | ⟨rfl, h1b⟩
  · rcases h2 with h2 | ⟨rfl, h2b⟩
    · exact Or.inl (Nat.lt_trans h1 h2)
    · exact Or.inl h1
  · rcases h2 with h2 | ⟨rfl, h2b⟩
    · exact Or.inl h2
    · refine Or.inr ⟨rfl, ?_⟩
      rcases h1b with h1b | ⟨rfl, h1c⟩
      · rcases h2b with h2b | ⟨rfl, h2c⟩
        · exact Or.inl (Nat.lt_trans h1b h2b)
        · exact Or.inl h1b
      · rcases h2b with h2b | ⟨rfl, h2c⟩
        · exact Or.inl h2b
        · exact Or.inr ⟨rfl, ptsLe_trans x3 y3 z3 h1c h2c⟩

theorem keyLe_total (x y : Nat × Nat × List Nat) : keyLe x y = true ∨ keyLe y x = true := by
  obtain ⟨x1, x2, x3⟩ := x
  obtain ⟨y1, y2, y3⟩ := y
  simp only [keyLe, Bool.or_eq_true, Bool.and_eq_true, decide_eq_true_eq, beq_iff_eq]
  rcases Nat.lt_trichotomy x1 y1 with h | rfl | h
  · exact Or.inl (Or.inl h)
  · rcases Nat.lt_trichotomy x2 y2 with h | rfl | h
    · exact Or.inl (Or.inr ⟨rfl, Or.inl h⟩)
    · rcases ptsLe_total x3 y3 with h | h
      · exact Or.inl (Or.inr ⟨rfl, Or.inr ⟨rfl, h⟩⟩)
      · exact Or.inr (Or.inr ⟨rfl, Or.inr ⟨rfl, h⟩⟩)
    · exact Or.inr (Or.inr ⟨rfl, Or.inl h⟩)
  · exact Or.inr (Or.inl h)

theorem suggLe_trans (q : String) (x y z : SchemaItem × Nat)
    (h1 : suggLe q x y = true) (h2 : suggLe q y z = true) : suggLe q x z = true :=
  keyLe_trans _ _ _ h1 h2

theorem suggLe_total (q : String) (x y : SchemaItem × Nat) :
    suggLe q x y = true ∨ suggLe q y x = true :=
  keyLe_total _ _

theorem mem_pyInsert (le : A → A → Bool) (x a : A) :
    ∀ l : List A, (a ∈ pyInsert le l x) ↔ a = x ∨ a ∈ l := by
  intro l
  induction l with
  | nil => simp [pyInsert]
  | cons y ys ih =>
    simp only [pyInsert]
    by_cases h : le y x = true
    · simp [h, ih]
      tauto
    · simp [h]

theorem pairwise_pyInsert (le : A → A → Bool)
    (htot : ∀ a b, le a b = true ∨ le b a = true)
    (htrans : ∀ a b c, le a b = true → le b c = true → le a c = true) (x : A) :
    ∀ l : List A, l.Pairwise (fun a b => le a b = true) →
      (pyInsert le l x).Pairwise (fun a b => le a b = true) := by
  intro l
  induction l with
  | nil => intro _; simp [pyInsert]
  | cons y ys ih =>
    intro hl
    rcases List.pairwise_cons.mp hl with ⟨hy, hys⟩
    by_cases h : le y x = true
    · simp only [pyInsert, h, if_true]
      refine List.pairwise_cons.mpr ⟨?_, ih hys⟩
      intro b hb
      rcases (mem_pyInsert le x b ys).mp hb with rfl | hbm
      · exact h
      · exact hy b hbm
    · simp only [pyInsert, h, if_false]
      have hxy : le x y = true := by
        rcases htot y x with h1 | h1
        · exact absurd h1 h
        · exact h1
      refine List.pairwise_cons.mpr ⟨?_, hl⟩
      intro b hb
      rcases List.mem_cons.mp hb with rfl | hbm
      · exact hxy
      · exact htrans x y b hxy (hy b hbm)

theorem mem_foldl_pyInsert (le : A → A → Bool) :
    ∀ (l acc : List A) (a : A),
      a ∈ l.foldl (pyInsert le) acc ↔ a ∈ acc ∨ a ∈ l := by
  intro l
  induction l with
  | nil => intro acc a; simp
  | cons x xs ih =>
    intro acc a
    simp only [List.foldl_cons, ih (pyInsert le acc x) a, mem_pyInsert, List.mem_cons]
    tauto

theorem mem_pySort (le : A → A → Bool) (l : List A) (a : A) :
    a ∈ pySort le l ↔ a ∈ l := by
  simp [pySort, mem_foldl_pyInsert]

theorem pairwise_foldl_pyInsert (le : A → A → Bool)
    (htot : ∀ a b, le a b = true ∨ le b a = true)
    (htrans : ∀ a b c, le a b = true → le b c = true → le a c = true) :
    ∀ (l acc : List A), acc.Pairwise (fun a b => le a b = true) →
      (l.foldl (pyInsert le) acc).Pairwise (fun a b => le a b = true) := by
  intro l
  induction l with
  | nil => intro acc hacc; exact hacc
  | cons x xs ih =>
    intro acc hacc
    exact ih (pyInsert le acc x) (pairwise_pyInsert le htot htrans x acc hacc)

theorem pairwise_pySort (le : A → A → Bool)
    (htot : ∀ a b, le a b = true ∨ le b a = true)
    (htrans : ∀ a b c, le a b = true → le b c = true → le a c = true) (l : List A) :
    (pySort le l).Pairwise (fun a b => le a b = true) :=
  pairwise_foldl_pyInsert le htot htrans l [] (List.Pairwise.nil)

/-! ### Claim C6 -/

/-- Candidate schema object named `User`. -/
def cUser : SchemaItem := ⟨"default", "User", "User", "User"⟩

/-- Candidate schema object named `Users`. -/
def cUsers : SchemaItem := ⟨"default", "Users", "Users", "Users"⟩

/-- Candidate schema object named `UserProfile`. -/
def cUserProfile : SchemaItem := ⟨"default", "UserProfile", "UserProfile", "UserProfile"⟩

/-- Candidate schema object named `Order`. -/
def cOrder : SchemaItem := ⟨"default", "Order", "Order", "Order"⟩

/-- Claim C6, counterexample: on the pool `User, Users, UserProfile, Order`
with query `Usre` and limit 3 the code returns `[User, Users]`, not the
claimed `[User, Users, UserProfile]` — `UserProfile` is itself excluded by
the distance cutoff, its Levenshtein distance to `Usre` being 7. -/
theorem c6_find_item_suggestions_counterexample :
    find_item_suggestions (Option.none, "Usre") [] (fun _ => []) Option.none 3
      (Option.some [cUser, cUsers, cUserProfile, cOrder]) = [cUser, cUsers] ∧
    ([cUser, cUsers] : List SchemaItem) ≠ [cUser, cUsers, cUserProfile] := by
  decide

/-- Claim C6, amended: on the pool `User, Users, UserProfile, Order` with
query `Usre` and limit 3 the result is `[User, Users]`, in that order;
`UserProfile` (distance 7) and `Order` (distance 4) are both excluded by
the strict distance-below-3 cutoff.  In general the returned list contains
only candidates with Levenshtein distance strictly below 3, is sorted
ascending by the key `(distance, not prefix-match, display name)`, and is
truncated to `limit`. -/
theorem c6_find_item_suggestions_amended :
    (find_item_suggestions (Option.none, "Usre") [] (fun _ => []) Option.none 3
        (Option.some [cUser, cUsers, cUserProfile, cOrder]) = [cUser, cUsers] ∧
      levenshtein_distance "Usre" "User" = 2 ∧
      levenshtein_distance "Usre" "Users" = 2 ∧
      levenshtein_distance "Usre" "UserProfile" = 7 ∧
      levenshtein_distance "Usre" "Order" = 4) ∧
    (∀ (name : Option String × String) (ma : Aliases) (sm : String → List SchemaItem)
      (it : Option (SchemaItem → Bool)) (lim : Nat) (coll : Option (List SchemaItem)),
      (find_item_suggestions name ma sm it lim coll).length ≤ lim ∧
      (∀ s ∈ find_item_suggestions name ma sm it lim coll,
        levenshtein_distance name.2 s.shortname < 3) ∧
      (find_item_suggestions name ma sm it lim coll).Pairwise
        (fun a b =>
          suggLe name.2 (a, levenshtein_distance name.2 a.shortname)
            (b, levenshtein_distance name.2 b.shortname) = true)) := by
  refine ⟨by decide, ?_⟩
  intro name ma sm it lim coll
  simp only [find_item_suggestions]
  set q := name.2 with hq
  set filtered :=
    (match it with
     | Option.some p =>
       (match coll with
        | Option.some c => c
        | Option.none =>
          (match aliasGetD ma name.1 name.1 with
           | Option.some m => if m == "" then [] else sm m
           | Option.none => []) ++
          (if pyTruthyOptStr name.1 then [] else sm "std")).filter p
     | Option.none =>
       (match coll with
        | Option.some c => c
        | Option.none =>
          (match aliasGetD ma name.1 name.1 with
           | Option.some m => if m == "" then [] else sm m
           | Option.none => []) ++
          (if pyTruthyOptStr name.1 then [] else sm "std"))) with hfiltered
  set closest :=
    (filtered.map (fun s => (s, levenshtein_distance q s.shortname))).filter
      (fun sd => sd.2 < 3) with hclosest
  have hclosest2 : ∀ sd ∈ closest, sd.2 = levenshtein_distance q sd.1.shortname ∧ sd.2 < 3 := by
    intro sd hsd
    rw [hclosest] at hsd
    rcases List.mem_filter.mp hsd with ⟨hmem, hlt⟩
    rcases List.mem_map.mp hmem with ⟨s, hs, rfl⟩
    exact ⟨rfl, by simpa using hlt⟩
  refine ⟨?_, ?_, ?_⟩
  · have h2 : ((pySort (suggLe q) closest).take lim).length ≤ lim :=
      List.length_take_le _ _
    simp only [List.length_map]
    exact h2
  · intro s hs
    rcases List.mem_map.mp hs with ⟨sd, hsd, rfl⟩
    have hsd2 : sd ∈ pySort (suggLe q) closest := List.take_subset _ _ hsd
    have hsd3 : sd ∈ closest := (mem_pySort _ _ _).mp hsd2
    rcases hclosest2 sd hsd3 with ⟨hd, hlt⟩
    rw [← hd]
    exact hlt
  · have hsorted := pairwise_pySort (suggLe q) (suggLe_total q) (suggLe_trans q) closest
    have htake : ((pySort (suggLe q) closest).take lim).Pairwise
        (fun a b => suggLe q a b = true) :=
      hsorted.sublist (List.take_sublist _ _)
    have hmemtake : ∀ sd ∈ (pySort (suggLe q) closest).take lim, sd ∈ closest := by
      intro sd hsd
      exact (mem_pySort _ _ _).mp (List.take_subset _ _ hsd)
    rw [List.pairwise_map]
    refine List.Pairwise.imp_of_mem ?_ htake
    intro a b ha hb hab
    rcases hclosest2 a (hmemtake a ha) with ⟨hda, _⟩
    rcases hclosest2 b (hmemtake b hb) with ⟨hdb, _⟩
    have ha2 : a = (a.1, levenshtein_distance q a.1.shortname) := by
      rw [← hda]
    have hb2 : b = (b.1, levenshtein_distance q b.1.shortname) := by
      rw [← hdb]
    rw [← ha2, ← hb2]
    exact hab

/-! ### Claim C9 -/

/-- Claim C9: `enrich_schema_lookup_error` is the identity on the error when
no suggestion is found; when suggestions exist it only sets the
hint/details diagnostic pair (hint phrased singularly, with the name in
single quotes, for one suggestion and as a comma-joined enumeration for
several), leaving every other field of the error untouched. -/
theorem c9_enrich_schema_lookup_error (error : LookupErr) (itemName : Option String × String)
    (ma : Aliases) (sm : String → List SchemaItem) (it : Option (SchemaItem → Bool))
    (lim : Nat) (tmpl : Option (String → String)) (coll : Option (List SchemaItem)) :
    (find_item_suggestions itemName ma sm it lim coll = [] →
      enrich_schema_lookup_error error itemName ma sm it lim tmpl coll = error) ∧
    (find_item_suggestions itemName ma sm it lim coll ≠ [] →
      ∃ h : String,
        enrich_schema_lookup_error error itemName ma sm it lim tmpl coll =
          { error with hint := Option.some h, details := Option.none } ∧
        ((find_item_suggestions itemName ma sm it lim coll).length = 1 →
          ∃ n, h = "did you mean " ++ pyRepr n ++ "?") ∧
        (1 < (find_item_suggestions itemName ma sm it lim coll).length →
          ∃ ns : List String, ns ≠ [] ∧
            h = "did you mean one of these: " ++ String.intercalate ", " ns ++ "?")) := by
  cases hs : find_item_suggestions itemName ma sm it lim coll with
  | nil =>
    constructor
    · intro _
      simp only [enrich_schema_lookup_error, hs]
    · intro hne
      exact absurd rfl hne
  | cons s stl =>
    constructor
    · intro h0
      exact absurd h0 (List.cons_ne_nil _ _)
    · intro _
      cases stl with
      | nil =>
        cases tmpl with
        | none =>
          refine ⟨"did you mean " ++ pyRepr (renderSuggestion ma s) ++ "?", ?_, ?_, ?_⟩
          · simp only [enrich_schema_lookup_error, hs, List.map_cons, List.map_nil]
            rfl
          · intro _
            exact ⟨renderSuggestion ma s, rfl⟩
          · intro hlt
            simp only [List.length_cons, List.length_nil] at hlt
            exact absurd hlt (by omega)
        | some f =>
          refine ⟨"did you mean " ++ pyRepr (f (renderSuggestion ma s)) ++ "?", ?_, ?_, ?_⟩
          · simp only [enrich_schema_lookup_error, hs, List.map_cons, List.map_nil]
            rfl
          · intro _
            exact ⟨f (renderSuggestion ma s), rfl⟩
          · intro hlt
            simp only [List.length_cons, List.length_nil] at hlt
            exact absurd hlt (by omega)
      | cons s2 stl2 =>
        cases tmpl with
        | none =>
          refine ⟨"did you mean one of these: " ++
            String.intercalate ", " ((s :: s2 :: stl2).map (renderSuggestion ma)) ++ "?",
            ?_, ?_, ?_⟩
          · simp only [enrich_schema_lookup_error, hs, List.map_cons]
            rfl
          · intro h1
            simp only [List.length_cons] at h1
            exact absurd h1 (by omega)
          · intro _
            exact ⟨(s :: s2 :: stl2).map (renderSuggestion ma), by simp, rfl⟩
        | some f =>
          refine ⟨"did you mean one of these: " ++
            String.intercalate ", " (((s :: s2 :: stl2).map (renderSuggestion ma)).map f) ++ "?",
            ?_, ?_, ?_⟩
          · simp only [enrich_schema_lookup_error, hs, List.map_cons]
            rfl
          · intro h1
            simp only [List.length_cons] at h1
            exact absurd h1 (by omega)
          · intro _
            exact ⟨((s :: s2 :: stl2).map (renderSuggestion ma)).map f, by simp, rfl⟩

/-- A concrete lookup error used by the claim C9 witness. -/
def cErr0 : LookupErr := ⟨"msg", Option.some 3, Option.none, Option.none⟩

/-- Witness for claim C9: the suggestion-present conjunct applied at a
one-candidate pool. -/
theorem c9_enrich_schema_lookup_error_witness :
    ∃ h : String,
      enrich_schema_lookup_error cErr0 (Option.none, "Usre") [] (fun _ => [])
          Option.none 3 Option.none (Option.some [cUser]) =
        { cErr0 with hint := Option.some h, details := Option.none } ∧
      ((find_item_suggestions (Option.none, "Usre") [] (fun _ => []) Option.none 3
          (Option.some [cUser])).length = 1 →
        ∃ n, h = "did you mean " ++ pyRepr n ++ "?") ∧
      (1 < (find_item_suggestions (Option.none, "Usre") [] (fun _ => []) Option.none 3
          (Option.some [cUser])).length →
        ∃ ns : List String, ns ≠ [] ∧
          h = "did you mean one of these: " ++ String.intercalate ", " ns ++ "?") :=
  (c9_enrich_schema_lookup_error cErr0 (Option.none, "Usre") [] (fun _ => [])
      Option.none 3 Option.none (Option.some [cUser])).2 (by decide)

/-! ### Claim C1 -/

/-- Some subtype in the list is named (its `name` field is truthy). -/
def tnlAnyNamed : TNList → Bool
  | .nil => false
  | .cons st tl => pyTruthyOptStr st.nameAttr || tnlAnyNamed tl

/-- Some subtype in the list is positional (its `name` field is falsy). -/
def tnlAnyUnnamed : TNList → Bool
  | .nil => false
  | .cons st tl => !(pyTruthyOptStr st.nameAttr) || tnlAnyUnnamed tl

theorem tupleLoop_unnamed_err (ma : Aliases) (schema : Option Schema) (fc : Option Nat) :
    ∀ (l : TNList) (si : Nat) (acc : ElemList),
      tnlAnyUnnamed l = true →
      (∀ st, tnlContains st l = true → ∃ r, ast_to_typeref ma schema st = Except.ok r) →
      tupleLoop ma schema fc si (Option.some true) Option.none acc l =
        Except.error ⟨ErrKind.itemNotFound, mixingMsg, fc⟩
  | TNList.nil => by
    intro si acc h _
    simp [tnlAnyUnnamed] at h
  | TNList.cons st tl => by
    intro si acc h hconv
    by_cases hn : pyTruthyOptStr st.nameAttr = true
    · obtain ⟨r, hr⟩ := hconv st (by simp [tnlContains])
      have h2 : tnlAnyUnnamed tl = true := by
        simpa [tnlAnyUnnamed, hn] using h
      simp only [tupleLoop, hn, if_true, Option.isSome_some, Option.isSome_none,
        Bool.and_false, Bool.false_eq_true, if_false, hr]
      exact tupleLoop_unnamed_err ma schema fc tl (si + 1)
        (odInsert (st.nameAttr.getD "") r acc) h2
        (fun st1 hst1 => hconv st1 (by simp [tnlContains, hst1]))
    · have hn2 : pyTruthyOptStr st.nameAttr = false := by simpa using hn
      simp [tupleLoop, hn2]

theorem tupleLoop_named_err (ma : Aliases) (schema : Option Schema) (fc : Option Nat) :
    ∀ (l : TNList) (si : Nat) (acc : ElemList),
      tnlAnyNamed l = true →
      (∀ st, tnlContains st l = true → ∃ r, ast_to_typeref ma schema st = Except.ok r) →
      tupleLoop ma schema fc si Option.none (Option.some true) acc l =
        Except.error ⟨ErrKind.itemNotFound, mixingMsg, fc⟩
  | TNList.nil => by
    intro si acc h _
    simp [tnlAnyNamed] at h
  | TNList.cons st tl => by
    intro si acc h hconv
    by_cases hn : pyTruthyOptStr st.nameAttr = true
    · simp [tupleLoop, hn]
    · have hn2 : pyTruthyOptStr st.nameAttr = false := by simpa using hn
      obtain ⟨r, hr⟩ := hconv st (by simp [tnlContains])
      have h2 : tnlAnyNamed tl = true := by
        simpa [tnlAnyNamed, hn2] using h
      simp only [tupleLoop, hn2, Bool.false_eq_true, if_false, Option.isSome_none,
        Bool.false_and, hr]
      exact tupleLoop_named_err ma schema fc tl (si + 1)
        (odInsert (toString si) r acc) h2
        (fun st1 hst1 => hconv st1 (by simp [tnlContains, hst1]))

theorem tupleLoop_mix_err (ma : Aliases) (schema : Option Schema) (fc : Option Nat) :
    ∀ (l : TNList) (si : Nat) (acc : ElemList),
      tnlAnyNamed l = true → tnlAnyUnnamed l = true →
      (∀ st, tnlContains st l = true → ∃ r, ast_to_typeref ma schema st = Except.ok r) →
      tupleLoop ma schema fc si Option.none Option.none acc l =
        Except.error ⟨ErrKind.itemNotFound, mixingMsg, fc⟩
  | TNList.nil => by
    intro si acc h _ _
    simp [tnlAnyNamed] at h
  | TNList.cons st tl => by
    intro si acc hn1 hu1 hconv
    obtain ⟨r, hr⟩ := hconv st (by simp [tnlContains])
    by_cases hn : pyTruthyOptStr st.nameAttr = true
    · have h2 : tnlAnyUnnamed tl = true := by
        simpa [tnlAnyUnnamed, hn] using hu1
      simp only [tupleLoop, hn, if_true, Option.isSome_some, Option.isSome_none,
        Bool.and_false, Bool.false_eq_true, if_false, hr]
      exact tupleLoop_unnamed_err ma schema fc tl (si + 1)
        (odInsert (st.nameAttr.getD "") r acc) h2
        (fun st1 hst1 => hconv st1 (by simp [tnlContains, hst1]))
    · have hn2 : pyTruthyOptStr st.nameAttr = false := by simpa using hn
      have h2 : tnlAnyNamed tl = true := by
        simpa [tnlAnyNamed, hn2] using hn1
      simp only [tupleLoop, hn2, Bool.false_eq_true, if_false, Option.isSome_none,
        Bool.false_and, hr]
      exact tupleLoop_named_err ma schema fc tl (si + 1)
        (odInsert (toString si) r acc) h2
        (fun st1 hst1 => hconv st1 (by simp [tnlContains, hst1]))

/-- Claim C1, amended: for a tuple `TypeName` node whose subtype list mixes
a named and a positional subtype (and whose subtypes each convert
successfully on their own, so that no earlier resolution failure preempts
the check), `ast_to_typeref` fails with an `ItemNotFoundError` — not the
claimed `InvalidTypeDefinition` — carrying the mixed-declaration message,
and the error's source location is the first subtype's source location. -/
theorem c1_tuple_mix_amended (ma : Aliases) (schema : Option Schema) (nm : Option String)
    (mOpt : Option String) (sts : TNList) (ctx : Option Nat)
    (hnamed : tnlAnyNamed sts = true) (hunnamed : tnlAnyUnnamed sts = true)
    (hconv : ∀ st, tnlContains st sts = true →
      ∃ r, ast_to_typeref ma schema st = Except.ok r) :
    ast_to_typeref ma schema (AstTypeName.mk nm ⟨mOpt, "tuple"⟩ (TNSub.some sts) ctx) =
      Except.error ⟨ErrKind.itemNotFound, mixingMsg, tnlFirstContext sts⟩ := by
  have hloop := tupleLoop_mix_err ma schema (tnlFirstContext sts) sts 0 ElemList.nil
    hnamed hunnamed hconv
  show (match tupleLoop ma schema (tnlFirstContext sts) 0 Option.none Option.none
          ElemList.nil sts with
        | Except.error e => Except.error e
        | Except.ok (subtypes, named) =>
          (tupleFromSubtypes subtypes (optBoolToBool named)).mapError
            (fun e => setSourceContext e (tnlFirstContext sts))) =
       Except.error ⟨ErrKind.itemNotFound, mixingMsg, tnlFirstContext sts⟩
  rw [hloop]

/-- A named tuple subtype node `a := std::int64` with source location 10. -/
def cNamedSub : AstTypeName :=
  AstTypeName.mk (Option.some "a") ⟨Option.some "std", "int64"⟩ TNSub.none (Option.some 10)

/-- A positional tuple subtype node `std::str` with source location 11. -/
def cUnnamedSub : AstTypeName :=
  AstTypeName.mk Option.none ⟨Option.some "std", "str"⟩ TNSub.none (Option.some 11)

/-- A tuple `TypeName` node mixing the named and the positional subtype. -/
def cMixedTupleNode : AstTypeName :=
  AstTypeName.mk Option.none ⟨Option.none, "tuple"⟩
    (TNSub.some (TNList.cons cNamedSub (TNList.cons cUnnamedSub TNList.nil))) (Option.some 1)

/-- Claim C1, counterexample: on a concrete mixed tuple node the code does
fail at the first subtype's location (10), but with error kind
`ItemNotFoundError`, which is not the claimed `InvalidTypeDefinition`. -/
theorem c1_tuple_mix_counterexample :
    ast_to_typeref [] Option.none cMixedTupleNode =
      Except.error ⟨ErrKind.itemNotFound, mixingMsg, Option.some 10⟩ ∧
    ErrKind.itemNotFound ≠ ErrKind.invalidTypeDefinition := by decide

/-- Witness for claim C1: the amended statement applied at the concrete
mixed tuple node, its hypotheses discharged by evaluation. -/
theorem c1_tuple_mix_witness :
    ast_to_typeref [] Option.none
        (AstTypeName.mk Option.none ⟨Option.none, "tuple"⟩
          (TNSub.some (TNList.cons cNamedSub (TNList.cons cUnnamedSub TNList.nil)))
          (Option.some 1)) =
      Except.error ⟨ErrKind.itemNotFound, mixingMsg,
        tnlFirstContext (TNList.cons cNamedSub (TNList.cons cUnnamedSub TNList.nil))⟩ := by
  refine c1_tuple_mix_amended [] Option.none Option.none Option.none _ (Option.some 1)
    (by decide) (by decide) ?_
  intro st hst
  have hcases : st = cNamedSub ∨ st = cUnnamedSub := by
    simp [tnlContains] at hst
    tauto
  rcases hcases with rfl | rfl
  · exact ⟨SObject.ref ⟨"std", "int64"⟩, by decide⟩
  · exact ⟨SObject.ref ⟨"std", "str"⟩, by decide⟩

/-! ### Claim C10 -/

/-- Every subtype in the list is named. -/
def tnlAllNamed : TNList → Bool
  | .nil => true
  | .cons st tl => pyTruthyOptStr st.nameAttr && tnlAllNamed tl

/-- The element-map key a named subtype contributes (`st.name`). -/
def stKey (st : AstTypeName) : String := st.nameAttr.getD ""

/-- The declared field names of a subtype list, in order. -/
def tnlNames : TNList → List String
  | .nil => []
  | .cons st tl => stKey st :: tnlNames tl

/-- Decides whether a list of names contains a duplicate. -/
def hasDupStr : List String → Bool
  | [] => false
  | k :: ks => ks.contains k || hasDupStr ks

/-- The last subtype in the list declaring the field name `k`, if any. -/
def tnlLastNamed (k : String) : TNList → Option AstTypeName
  | .nil => Option.none
  | .cons st tl =>
    match tnlLastNamed k tl with
    | Option.some r => Option.some r
    | Option.none => if stKey st == k then Option.some st else Option.none

theorem odInsert_len_le (k : String) (v : SObject) :
    ∀ e : ElemList, elemsLen (odInsert k v e) ≤ elemsLen e + 1
  | ElemList.nil => by simp [odInsert, elemsLen]
  | ElemList.cons k1 v1 tl => by
    by_cases h : k1 = k
    · simp [odInsert, h, elemsLen]
    · have := odInsert_len_le k v tl
      simp only [odInsert, h, if_false, elemsLen]
      omega

theorem odInsert_len_mem (k : String) (v : SObject) :
    ∀ e : ElemList, k ∈ elemKeys e → elemsLen (odInsert k v e) = elemsLen e
  | ElemList.nil => by intro h; simp [elemKeys] at h
  | ElemList.cons k1 v1 tl => by
    intro h
    by_cases h1 : k1 = k
    · simp [odInsert, h1, elemsLen]
    · have h2 : k ∈ elemKeys tl := by
        rcases List.mem_cons.mp (by simpa [elemKeys] using h) with h3 | h3
        · exact absurd h3.symm h1
        · exact h3
      simp only [odInsert, h1, if_false, elemsLen, odInsert_len_mem k v tl h2]

theorem odInsert_keys_mono (k : String) (v : SObject) :
    ∀ (e : ElemList) (k1 : String), k1 ∈ elemKeys e → k1 ∈ elemKeys (odInsert k v e)
  | ElemList.nil => by intro k1 h; simp [elemKeys] at h
  | ElemList.cons k2 v2 tl => by
    intro k1 h
    by_cases h2 : k2 = k
    · simpa [odInsert, h2, elemKeys] using (by simpa [elemKeys, h2] using h)
    · rcases List.mem_cons.mp (by simpa [elemKeys] using h) with h3 | h3
      · simp [odInsert, h2, elemKeys, h3]
      · simp [odInsert, h2, elemKeys]
        exact Or.inr (odInsert_keys_mono k v tl k1 h3)

theorem odInsert_keys_self (k : String) (v : SObject) :
    ∀ e : ElemList, k ∈ elemKeys (odInsert k v e)
  | ElemList.nil => by simp [odInsert, elemKeys]
  | ElemList.cons k2 v2 tl => by
    by_cases h2 : k2 = k
    · simp [odInsert, h2, elemKeys]
    · simp [odInsert, h2, elemKeys]
      exact Or.inr (odInsert_keys_self k v tl)

theorem odInsert_find_self (k : String) (v : SObject) :
    ∀ e : ElemList, elemFind k (odInsert k v e) = Option.some v
  | ElemList.nil => by simp [odInsert, elemFind]
  | ElemList.cons k2 v2 tl => by
    by_cases h2 : k2 = k
    · simp [odInsert, h2, elemFind]
    · simp only [odInsert, h2, if_false, elemFind]
      exact odInsert_find_self k v tl

theorem odInsert_find_other (k k1 : String) (v : SObject) (hne : k1 ≠ k) :
    ∀ e : ElemList, elemFind k1 (odInsert k v e) = elemFind k1 e
  | ElemList.nil => by simp [odInsert, elemFind, Ne.symm hne]
  | ElemList.cons k2 v2 tl => by
    by_cases h2 : k2 = k
    · subst h2
      simp [odInsert, elemFind, Ne.symm hne]
    · simp only [odInsert, h2, if_false, elemFind]
      by_cases h3 : k2 = k1
      · simp [h3]
      · simp only [h3, if_false]
        exact odInsert_find_other k k1 v hne tl

theorem tupleLoop_allNamed (ma : Aliases) (schema : Option Schema) (fc : Option Nat) :
    ∀ (l : TNList) (si : Nat) (acc : ElemList),
      tnlAllNamed l = true →
      (∀ st, tnlContains st l = true → ∃ r, ast_to_typeref ma schema st = Except.ok r) →
      ∃ elems,
        tupleLoop ma schema fc si (Option.some true) Option.none acc l =
          Except.ok (elems, Option.some true) ∧
        elemsLen elems ≤ elemsLen acc + tnlLen l ∧
        (∀ k, k ∈ elemKeys acc → k ∈ elemKeys elems) ∧
        (∀ k, elemFind k elems =
          (match tnlLastNamed k l with
           | Option.some st1 => (ast_to_typeref ma schema st1).toOption
           | Option.none => elemFind k acc)) ∧
        ((hasDupStr (tnlNames l) = true ∨ ∃ k, k ∈ tnlNames l ∧ k ∈ elemKeys acc) →
          elemsLen elems < elemsLen acc + tnlLen l)
  | TNList.nil => by
    intro si acc _ _
    refine ⟨acc, rfl, by simp [tnlLen], fun k hk => hk, fun k => rfl, ?_⟩
    rintro (hd | ⟨k, hk, _⟩)
    · simp [hasDupStr, tnlNames] at hd
    · simp [tnlNames] at hk
  | TNList.cons st tl => by
    intro si acc hall hconv
    have hparts : pyTruthyOptStr st.nameAttr = true ∧ tnlAllNamed tl = true := by
      simpa [tnlAllNamed] using hall
    obtain ⟨hn, hall2⟩ := hparts
    obtain ⟨r, hr⟩ := hconv st (by simp [tnlContains])
    obtain ⟨elems, hloop, hlen, hkeys, hfind, hstrict⟩ :=
      tupleLoop_allNamed ma schema fc tl (si + 1) (odInsert (st.nameAttr.getD "") r acc) hall2
        (fun st1 hst1 => hconv st1 (by simp [tnlContains, hst1]))
    refine ⟨elems, ?_, ?_, ?_, ?_, ?_⟩
    · simp only [tupleLoop, hn, if_true, Option.isSome_some, Option.isSome_none,
        Bool.and_false, Bool.false_eq_true, if_false, hr]
      exact hloop
    · have h1 := odInsert_len_le (st.nameAttr.getD "") r acc
      simp only [tnlLen]
      omega
    · intro k1 hk1
      exact hkeys k1 (odInsert_keys_mono (st.nameAttr.getD "") r acc k1 hk1)
    · intro k
      have h2 := hfind k
      cases hlast : tnlLastNamed k tl with
      | some st1 =>
        rw [hlast] at h2
        rw [h2]
        simp [tnlLastNamed, hlast]
      | none =>
        rw [hlast] at h2
        by_cases hk : stKey st = k
        · have hfself : elemFind k (odInsert (st.nameAttr.getD "") r acc) = Option.some r := by
            rw [show st.nameAttr.getD "" = k from hk]
            exact odInsert_find_self k r acc
          rw [h2, hfself]
          simp [tnlLastNamed, hlast, hk, hr, Except.toOption]
        · have hfother : elemFind k (odInsert (st.nameAttr.getD "") r acc) = elemFind k acc :=
            odInsert_find_other (st.nameAttr.getD "") k r (fun h => hk h.symm) acc
          rw [h2, hfother]
          simp only [tnlLastNamed, hlast]
          rw [if_neg (by simpa using hk)]
    · intro hcase
      simp only [tnlLen]
      by_cases hkacc : st.nameAttr.getD "" ∈ elemKeys acc
      · have heq := odInsert_len_mem (st.nameAttr.getD "") r acc hkacc
        omega
      · have hstep : elemsLen (odInsert (st.nameAttr.getD "") r acc) ≤ elemsLen acc + 1 :=
          odInsert_len_le (st.nameAttr.getD "") r acc
        have hant : hasDupStr (tnlNames tl) = true ∨
            ∃ k, k ∈ tnlNames tl ∧ k ∈ elemKeys (odInsert (st.nameAttr.getD "") r acc) := by
          rcases hcase with hd | ⟨k, hk, hka⟩
          · simp only [tnlNames, hasDupStr, Bool.or_eq_true] at hd
            rcases hd with hc | hd
            · refine Or.inr ⟨stKey st, ?_, ?_⟩
              · simpa using hc
              · exact odInsert_keys_self (st.nameAttr.getD "") r acc
            · exact Or.inl hd
          · rcases List.mem_cons.mp (by simpa [tnlNames] using hk) with rfl | hktl
            · exact absurd hka hkacc
            · exact Or.inr ⟨k, hktl, odInsert_keys_mono (st.nameAttr.getD "") r acc k hka⟩
        have h3 := hstrict hant
        omega

/-- Claim C10: for a tuple `TypeName` node whose subtypes are all named but
declare a duplicated field name (and each convert successfully on their
own), `ast_to_typeref` raises no error: it returns a named tuple in which
the value under each name is the conversion of the *last* subtype declaring
that name, and the tuple has strictly fewer elements than the node has
subtypes. -/
theorem c10_duplicate_named_tuple (ma : Aliases) (schema : Option Schema)
    (nm mOpt : Option String) (sts : TNList) (ctx : Option Nat)
    (hall : tnlAllNamed sts = true)
    (hdup : hasDupStr (tnlNames sts) = true)
    (hconv : ∀ st, tnlContains st sts = true →
      ∃ r, ast_to_typeref ma schema st = Except.ok r) :
    ∃ elems,
      ast_to_typeref ma schema (AstTypeName.mk nm ⟨mOpt, "tuple"⟩ (TNSub.some sts) ctx) =
        Except.ok (SObject.tuple elems true) ∧
      elemsLen elems < tnlLen sts ∧
      (∀ k st1, tnlLastNamed k sts = Option.some st1 →
        elemFind k elems = (ast_to_typeref ma schema st1).toOption) := by
  cases sts with
  | nil => simp [tnlNames, hasDupStr] at hdup
  | cons st tl =>
    have hparts : pyTruthyOptStr st.nameAttr = true ∧ tnlAllNamed tl = true := by
      simpa [tnlAllNamed] using hall
    obtain ⟨hn, hall2⟩ := hparts
    obtain ⟨r, hr⟩ := hconv st (by simp [tnlContains])
    obtain ⟨elems, hloop, hlen, hkeys, hfind, hstrict⟩ :=
      tupleLoop_allNamed ma schema (tnlFirstContext (TNList.cons st tl)) tl 1
        (odInsert (st.nameAttr.getD "") r ElemList.nil) hall2
        (fun st1 hst1 => hconv st1 (by simp [tnlContains, hst1]))
    refine ⟨elems, ?_, ?_, ?_⟩
    · show (match tupleLoop ma schema (tnlFirstContext (TNList.cons st tl)) 0 Option.none
            Option.none ElemList.nil (TNList.cons st tl) with
          | Except.error e => Except.error e
          | Except.ok (subtypes, named) =>
            (tupleFromSubtypes subtypes (optBoolToBool named)).mapError
              (fun e => setSourceContext e (tnlFirstContext (TNList.cons st tl)))) =
        Except.ok (SObject.tuple elems true)
      simp only [tupleLoop, hn, if_true, Option.isSome_some, Option.isSome_none,
        Bool.and_false, Bool.false_eq_true, if_false, hr]
      rw [hloop]
      rfl
    · have hant : hasDupStr (tnlNames tl) = true ∨
          ∃ k, k ∈ tnlNames tl ∧ k ∈ elemKeys (odInsert (st.nameAttr.getD "") r ElemList.nil) := by
        simp only [tnlNames, hasDupStr, Bool.or_eq_true] at hdup
        rcases hdup with hc | hd
        · refine Or.inr ⟨stKey st, ?_, odInsert_keys_self (st.nameAttr.getD "") r ElemList.nil⟩
          simpa using hc
        · exact Or.inl hd
      have h3 := hstrict hant
      have h4 := odInsert_len_le (st.nameAttr.getD "") r ElemList.nil
      simp only [tnlLen, elemsLen] at h3 h4 ⊢
      omega
    · intro k st1 hlast
      have h2 := hfind k
      cases hlast2 : tnlLastNamed k tl with
      | some st2 =>
        have hst12 : st1 = st2 := by
          simp [tnlLastNamed, hlast2] at hlast
          exact hlast.symm
        subst hst12
        rw [hlast2] at h2
        exact h2
      | none =>
        rw [hlast2] at h2
        have hif : (if stKey st == k then Option.some st else Option.none) = Option.some st1 := by
          simpa [tnlLastNamed, hlast2] using hlast
        by_cases hk : stKey st = k
        · have hst1 : st1 = st := by
            rw [if_pos (by simpa using hk)] at hif
            exact (Option.some.inj hif).symm
          rw [hst1]
          have hfself : elemFind k (odInsert (st.nameAttr.getD "") r ElemList.nil) =
              Option.some r := by
            rw [show st.nameAttr.getD "" = k from hk]
            exact odInsert_find_self k r ElemList.nil
          rw [h2, hfself, hr]
          rfl
        · rw [if_neg (by simpa using hk)] at hif
          cases hif

/-- A named tuple subtype `a := std::int64` (location 20). -/
def cDupSubA : AstTypeName :=
  AstTypeName.mk (Option.some "a") ⟨Option.some "std", "int64"⟩ TNSub.none (Option.some 20)

/-- A second subtype reusing the field name `a` (location 21). -/
def cDupSubB : AstTypeName :=
  AstTypeName.mk (Option.some "a") ⟨Option.some "std", "str"⟩ TNSub.none (Option.some 21)

/-- The subtype list of a named tuple declaring `a` twice. -/
def cDupList : TNList := TNList.cons cDupSubA (TNList.cons cDupSubB TNList.nil)

/-- Witness for claim C10: the theorem applied at the concrete all-named
tuple declaring the field `a` twice. -/
theorem c10_duplicate_named_tuple_witness :
    ∃ elems,
      ast_to_typeref [] Option.none
          (AstTypeName.mk Option.none ⟨Option.none, "tuple"⟩ (TNSub.some cDupList)
            (Option.some 2)) =
        Except.ok (SObject.tuple elems true) ∧
      elemsLen elems < tnlLen cDupList ∧
      (∀ k st1, tnlLastNamed k cDupList = Option.some st1 →
        elemFind k elems = (ast_to_typeref [] Option.none st1).toOption) := by
  refine c10_duplicate_named_tuple [] Option.none Option.none Option.none cDupList
    (Option.some 2) (by decide) (by decide) ?_
  intro st hst
  have hcases : st = cDupSubA ∨ st = cDupSubB := by
    simp [cDupList, tnlContains] at hst
    tauto
  rcases hcases with rfl | rfl
  · exact ⟨SObject.ref ⟨"std", "int64"⟩, by decide⟩
  · exact ⟨SObject.ref ⟨"std", "str"⟩, by decide⟩

/-! ### Claim C3 -/

/-- Checks that the element names of a tuple are exactly the positional
index names `str(si)`, `str(si+1)`, ... as `ast_to_typeref` generates them
for an unnamed tuple declaration. -/
def indexKeysFrom : Nat → ElemList → Bool
  | _, ElemList.nil => true
  | i, ElemList.cons k _ tl => k == toString i && indexKeysFrom (i + 1) tl

mutual
/-- The type contains no named tuple: every tuple in it is positional
(`named = false` with distinct index-derived element names). -/
def positionalOnly : SObject → Bool
  | SObject.ref _ => true
  | SObject.array e => positionalOnly e
  | SObject.tuple elems named =>
    !named && indexKeysFrom 0 elems && !(hasDupStr (elemKeys elems)) && elemsPositional elems
/-- All element types of a tuple are themselves free of named tuples. -/
def elemsPositional : ElemList → Bool
  | ElemList.nil => true
  | ElemList.cons _ v tl => positionalOnly v && elemsPositional tl
end

mutual
/-- The qualified names of all plain references occurring in a type. -/
def refsOf : SObject → List QName
  | SObject.ref qn => [qn]
  | SObject.array e => refsOf e
  | SObject.tuple elems _ => refsOfElems elems
/-- The qualified names of all plain references in the element types. -/
def refsOfElems : ElemList → List QName
  | ElemList.nil => []
  | ElemList.cons _ v tl => refsOf v ++ refsOfElems tl
end

/-- Concatenation of ordered element maps. -/
def elemsAppend : ElemList → ElemList → ElemList
  | ElemList.nil, e2 => e2
  | ElemList.cons k v tl, e2 => ElemList.cons k v (elemsAppend tl e2)

theorem elemsAppend_nil : ∀ e : ElemList, elemsAppend e ElemList.nil = e
  | ElemList.nil => rfl
  | ElemList.cons k v tl => by
    simp only [elemsAppend, elemsAppend_nil tl]

theorem elemsAppend_assoc : ∀ a b c : ElemList,
    elemsAppend (elemsAppend a b) c = elemsAppend a (elemsAppend b c)
  | ElemList.nil, _, _ => rfl
  | ElemList.cons k v tl, b, c => by
    simp only [elemsAppend, elemsAppend_assoc tl b c]

theorem elemKeys_append : ∀ a b : ElemList,
    elemKeys (elemsAppend a b) = elemKeys a ++ elemKeys b
  | ElemList.nil, _ => rfl
  | ElemList.cons k v tl, b => by
    simp only [elemsAppend, elemKeys, elemKeys_append tl b, List.cons_append]

theorem odInsert_fresh (k : String) (v : SObject) :
    ∀ e : ElemList, k ∉ elemKeys e →
      odInsert k v e = elemsAppend e (ElemList.cons k v ElemList.nil)
  | ElemList.nil => by intro _; rfl
  | ElemList.cons k1 v1 tl => by
    intro h
    have h1 : k1 ≠ k := by
      intro he
      exact h (by simp [elemKeys, he])
    have h2 : k ∉ elemKeys tl := by
      intro he
      exact h (by simp [elemKeys, he])
    simp only [odInsert, h1, if_false, elemsAppend, odInsert_fresh k v tl h2]

theorem typeref_to_ast_nameAttr : ∀ t : SObject, (typeref_to_ast t).nameAttr = Option.none
  | SObject.ref _ => rfl
  | SObject.array _ => rfl
  | SObject.tuple _ _ => rfl

mutual
theorem roundtrip_obj (ma : Aliases) (s : Schema) :
    ∀ t : SObject,
      (∀ qn, qn ∈ refsOf t → s.get (Option.some qn.module) qn.name ma = Option.some qn) →
      positionalOnly t = true →
      ast_to_typeref ma (Option.some s) (typeref_to_ast t) = Except.ok t
  | SObject.ref qn => by
    intro h1 _
    have hget := h1 qn (by simp [refsOf])
    show scalarTyperef ma (Option.some s) ⟨Option.some qn.module, qn.name⟩ Option.none =
      Except.ok (SObject.ref qn)
    simp only [scalarTyperef, hget]
  | SObject.array e => by
    intro h1 h2
    have ihe := roundtrip_obj ma s e (fun qn h => h1 qn (by simpa [refsOf] using h))
      (by simpa [positionalOnly] using h2)
    show (match convSubtypes ma (Option.some s) (TNList.cons (typeref_to_ast e) TNList.nil) with
          | Except.error e1 => Except.error e1
          | Except.ok subtypes =>
            (arrayFromSubtypes subtypes).mapError (fun e1 => setSourceContext e1 Option.none)) =
      Except.ok (SObject.array e)
    have hconv : convSubtypes ma (Option.some s) (TNList.cons (typeref_to_ast e) TNList.nil) =
        Except.ok [e] := by
      simp only [convSubtypes, ihe]
    rw [hconv]
    rfl
  | SObject.tuple elems named => by
    intro h1 h2
    simp only [positionalOnly, Bool.and_eq_true, Bool.not_eq_true'] at h2
    obtain ⟨⟨⟨hnm, hidx⟩, hnd⟩, hpos⟩ := h2
    subst hnm
    have hloop := roundtrip_elems ma s
      (tnlFirstContext (tupleElemsToAst elems)) elems 0 ElemList.nil Option.none
      (fun qn h => h1 qn (by simpa [refsOf] using h)) hpos hidx
      (fun k _ hk => by simp [elemKeys] at hk) hnd
    show (match tupleLoop ma (Option.some s) (tnlFirstContext (tupleElemsToAst elems)) 0
            Option.none Option.none ElemList.nil (tupleElemsToAst elems) with
          | Except.error e1 => Except.error e1
          | Except.ok (subtypes, named1) =>
            (tupleFromSubtypes subtypes (optBoolToBool named1)).mapError
              (fun e1 => setSourceContext e1 (tnlFirstContext (tupleElemsToAst elems)))) =
      Except.ok (SObject.tuple elems false)
    rw [hloop]
    rfl
theorem roundtrip_elems (ma : Aliases) (s : Schema) (fc : Option Nat) :
    ∀ (elems : ElemList) (si : Nat) (acc : ElemList) (u : Option Bool),
      (∀ qn, qn ∈ refsOfElems elems →
        s.get (Option.some qn.module) qn.name ma = Option.some qn) →
      elemsPositional elems = true →
      indexKeysFrom si elems = true →
      (∀ k, k ∈ elemKeys elems → k ∉ elemKeys acc) →
      hasDupStr (elemKeys elems) = false →
      tupleLoop ma (Option.some s) fc si Option.none u acc (tupleElemsToAst elems) =
        Except.ok (elemsAppend acc elems, Option.none)
  | ElemList.nil => by
    intro si acc u _ _ _ _ _
    show Except.ok (acc, Option.none) = Except.ok (elemsAppend acc ElemList.nil, Option.none)
    rw [elemsAppend_nil]
  | ElemList.cons k v tl => by
    intro si acc u h1 h2 h3 h4 h5
    have hposparts : positionalOnly v = true ∧ elemsPositional tl = true := by
      simpa [elemsPositional] using h2
    have hidxparts : k = toString si ∧ indexKeysFrom (si + 1) tl = true := by
      simpa [indexKeysFrom] using h3
    obtain ⟨hpv, hptl⟩ := hposparts
    obtain ⟨hksi, hitl⟩ := hidxparts
    have hdupparts : k ∉ elemKeys tl ∧ hasDupStr (elemKeys tl) = false := by
      have h5b := h5
      simp only [elemKeys, hasDupStr, Bool.or_eq_true, Bool.or_eq_false_iff] at h5b
      refine ⟨?_, h5b.2⟩
      intro hmem
      have : (elemKeys tl).contains k = true := by simpa using hmem
      rw [this] at h5b
      exact absurd h5b.1 (by simp)
    obtain ⟨hkfresh, hdtl⟩ := hdupparts
    have ihv := roundtrip_obj ma s v
      (fun qn h => h1 qn (by simp [refsOfElems]; exact Or.inl h)) hpv
    have hfalse : pyTruthyOptStr (typeref_to_ast v).nameAttr = false := by
      rw [typeref_to_ast_nameAttr]
      rfl
    have hka : k ∉ elemKeys acc := h4 k (by simp [elemKeys])
    have hins : odInsert (toString si) v acc = elemsAppend acc (ElemList.cons k v ElemList.nil) := by
      rw [← hksi]
      exact odInsert_fresh k v acc hka
    have ihtl := roundtrip_elems ma s fc tl (si + 1)
      (elemsAppend acc (ElemList.cons k v ElemList.nil)) (Option.some true)
      (fun qn h => h1 qn (by simp [refsOfElems]; exact Or.inr h)) hptl hitl
      (fun k1 hk1 => by
        rw [elemKeys_append]
        simp only [List.mem_append, elemKeys, List.mem_cons, List.mem_singleton]
        rintro (hcontra | hcontra)
        · exact h4 k1 (by simp [elemKeys, hk1]) hcontra
        · rcases hcontra with hcontra | hcontra
          · exact hkfresh (hcontra ▸ hk1)
          · exact absurd hcontra (List.not_mem_nil k1))
      hdtl
    show tupleLoop ma (Option.some s) fc si Option.none u acc
        (TNList.cons (typeref_to_ast v) (tupleElemsToAst tl)) =
      Except.ok (elemsAppend acc (ElemList.cons k v tl), Option.none)
    simp only [tupleLoop, hfalse, Bool.false_eq_true, if_false, Option.isSome_none,
      Bool.false_and, ihv, hins, ihtl]
    rw [elemsAppend_assoc]
    rfl
end

/-- Claim C3, amended: for every type `t` built only from fully-resolvable
names (the schema resolves each reference in `t` to its own canonical name)
*and containing no named tuple* — every tuple positional with the distinct
index-derived element names — `ast_to_typeref (typeref_to_ast t)` over the
same schema returns exactly `t`.  For a type containing a named tuple the
round trip instead loses the element names (see the counterexample): the
tuple comes back positional. -/
theorem c3_roundtrip_amended (ma : Aliases) (s : Schema) (t : SObject)
    (h1 : ∀ qn, qn ∈ refsOf t → s.get (Option.some qn.module) qn.name ma = Option.some qn)
    (h2 : positionalOnly t = true) :
    ast_to_typeref ma (Option.some s) (typeref_to_ast t) = Except.ok t :=
  roundtrip_obj ma s t h1 h2

/-- A schema resolving exactly `std::int64` to itself. -/
def cSchemaStd : Schema :=
  ⟨fun m n _ =>
    if m == Option.some "std" && n == "int64" then Option.some ⟨"std", "int64"⟩
    else Option.none⟩

/-- A named one-element tuple type `tuple of (a := std::int64)`. -/
def cNamedTuple : SObject :=
  SObject.tuple (ElemList.cons "a" (SObject.ref ⟨"std", "int64"⟩) ElemList.nil) true

/-- Claim C3, counterexample: `cNamedTuple` is built only from
fully-resolvable names (first conjunct), yet its round trip yields the
positional tuple with element name `0` and `named = false` — not a value
structurally equivalent to the original named tuple. -/
theorem c3_roundtrip_counterexample :
    cSchemaStd.get (Option.some "std") "int64" [] = Option.some ⟨"std", "int64"⟩ ∧
    ast_to_typeref [] (Option.some cSchemaStd) (typeref_to_ast cNamedTuple) =
      Except.ok (SObject.tuple (ElemList.cons "0" (SObject.ref ⟨"std", "int64"⟩) ElemList.nil)
        false) ∧
    SObject.tuple (ElemList.cons "0" (SObject.ref ⟨"std", "int64"⟩) ElemList.nil) false ≠
      cNamedTuple := by
  decide

/-- Witness for claim C3: the amended round trip applied at the concrete
type `array of std::int64` over the concrete schema. -/
theorem c3_roundtrip_witness :
    ast_to_typeref [] (Option.some cSchemaStd) (typeref_to_ast (SObject.array cInt64Type)) =
      Except.ok (SObject.array cInt64Type) := by
  refine c3_roundtrip_amended [] cSchemaStd (SObject.array cInt64Type) ?_ (by decide)
  intro qn hqn
  have hq : qn = (⟨"std", "int64"⟩ : QName) := by
    simpa [refsOf, cInt64Type] using hqn
  subst hq
  decide
